import Mathlib

/-!
Verification development for the partition-lifecycle scripts in
`DB/Edit_Partition` (the `pymysql` and `subprocess` variants) and the
single-statement executor in `DB/Batch-SQL`.

The Python sources are shallowly embedded below:
pure helpers become Lean functions, the database and the Telegram
transport become explicit behaviour records (`Except`-valued functions),
and the batch loops become folds that thread the report lists exactly as
the source appends to them.
-/

/-! ## Calendar dates

The scripts manipulate `datetime` values only through their calendar
components (year, month, day) and whole-day `timedelta` shifts, so dates
are embedded as records of the three components with an exact
successor/predecessor function. -/

structure Date where
  year : Nat
  month : Nat
  day : Nat
deriving DecidableEq, Repr

/-- Gregorian leap-year rule, as implemented by Python `datetime`. -/
def isLeap (y : Nat) : Bool :=
  (y % 4 == 0 && y % 100 != 0) || (y % 400 == 0)

def daysInMonth (y m : Nat) : Nat :=
  if m = 2 then (if isLeap y then 29 else 28)
  else if m = 4 ∨ m = 6 ∨ m = 9 ∨ m = 11 then 30
  else 31

def daysInYear (y : Nat) : Nat := if isLeap y then 366 else 365

/-- Calendar successor of a date (what adding `timedelta(days=1)` does to
the date components of an aware datetime). -/
def nextDay (d : Date) : Date :=
  if d.day < daysInMonth d.year d.month then ⟨d.year, d.month, d.day + 1⟩
  else if d.month < 12 then ⟨d.year, d.month + 1, 1⟩
  else ⟨d.year + 1, 1, 1⟩

/-- Calendar predecessor of a date (subtracting `timedelta(days=1)`). -/
def prevDay (d : Date) : Date :=
  if 1 < d.day then ⟨d.year, d.month, d.day - 1⟩
  else if 1 < d.month then ⟨d.year, d.month - 1, daysInMonth d.year (d.month - 1)⟩
  else ⟨d.year - 1, 12, 31⟩

/-- `current_date + datetime.timedelta(days=n)`, date components. -/
def addDays (n : Nat) (d : Date) : Date := nextDay^[n] d

/-- `current_date - datetime.timedelta(days=n)`, date components. -/
def subDays (n : Nat) (d : Date) : Date := prevDay^[n] d

/-- Numeric key `YYYYMMDD`; for well-formed dates chronological order is
exactly the order of keys. -/
def dateKey (d : Date) : Nat := d.year * 10000 + d.month * 100 + d.day

/-- Chronological (lexicographic year/month/day) strict order on dates. -/
def dateLt (d₁ d₂ : Date) : Prop :=
  d₁.year < d₂.year ∨
    (d₁.year = d₂.year ∧
      (d₁.month < d₂.month ∨ (d₁.month = d₂.month ∧ d₁.day < d₂.day)))

instance : DecidablePred (fun p : Date × Date => dateLt p.1 p.2) := by
  intro p; unfold dateLt; infer_instance

instance (d₁ d₂ : Date) : Decidable (dateLt d₁ d₂) := by
  unfold dateLt; infer_instance

/-- Month and day fields are consistent with the Gregorian calendar. -/
def goodDate (d : Date) : Prop :=
  1 ≤ d.month ∧ d.month ≤ 12 ∧ 1 ≤ d.day ∧ d.day ≤ daysInMonth d.year d.month

instance (d : Date) : Decidable (goodDate d) := by
  unfold goodDate; infer_instance

/-- A date representable by Python `datetime` (`MINYEAR = 1`,
`MAXYEAR = 9999`) with consistent month and day. -/
def pyDate (d : Date) : Prop := goodDate d ∧ 1 ≤ d.year ∧ d.year ≤ 9999

instance (d : Date) : Decidable (pyDate d) := by
  unfold pyDate; infer_instance

/-- A representable date whose year prints with four digits. -/
def fourDigitDate (d : Date) : Prop := pyDate d ∧ 1000 ≤ d.year

instance (d : Date) : Decidable (fourDigitDate d) := by
  unfold fourDigitDate; infer_instance

/-! ## Decimal rendering

Python builds partition identifiers with `str(x)` and `str(x).zfill(2)`.
`natDigits` is decimal rendering of a natural number (no padding), written
with a structural fuel argument so that the kernel can evaluate it. -/

def digitChar (n : Nat) : Char := Char.ofNat (48 + n)

def natDigitsAux : Nat → Nat → List Char
  | 0, _ => []
  | fuel + 1, n =>
    if n < 10 then [digitChar n]
    else natDigitsAux fuel (n / 10) ++ [digitChar (n % 10)]

/-- Decimal digit characters of `n`, most significant first: Python
`str(n)` for a natural number. -/
def natDigits (n : Nat) : List Char := natDigitsAux (n + 1) n

/-- Python `str.zfill(w)`: left-pad with zeros to width `w`. -/
def zfill (w : Nat) (s : List Char) : List Char :=
  List.replicate (w - s.length) '0' ++ s

/-- `str(n).zfill(2)`, used for month and day fields. -/
def pad2 (n : Nat) : List Char := zfill 2 (natDigits n)

/-- Characters of the partition identifier: the `"p" + year + month + day`
concatenation of `pymysql 实现版.py` lines 83-89 and 119-125 (and the same
construction in the subprocess variant, lines 85-99). -/
def partitionChars (d : Date) : List Char :=
  'p' :: (natDigits d.year ++ pad2 d.month ++ pad2 d.day)

/-- The PartitionIdentifier string for a date. -/
def partitionName (d : Date) : String := ⟨partitionChars d⟩

/-- Fixed-width decimal rendering: `w` digit characters, most significant
first.  Used as the normal form when reasoning about identifiers of dates
with four-digit years. -/
def padDigits : Nat → Nat → List Char
  | 0, _ => []
  | w + 1, n => digitChar (n / 10 ^ w) :: padDigits w (n % 10 ^ w)

/-- Parse a partition identifier back into its date: expects `'p'`
followed by exactly eight digit characters `YYYYMMDD`. -/
def digitVal (c : Char) : Nat := c.toNat - 48

def parseIdent (s : String) : Option Date :=
  match s.data with
  | ['p', a, b, c, d, e, f, g, h] =>
    some ⟨digitVal a * 1000 + digitVal b * 100 + digitVal c * 10 + digitVal d,
          digitVal e * 10 + digitVal f,
          digitVal g * 10 + digitVal h⟩
  | _ => none

/-! ## Message chunking and the Telegram notifier

`split_message` mirrors the Python list comprehension
`[message[i:i + max_length] for i in range(0, len(message), max_length)]`
(identical in both variants): `range(0, n, m)` has `⌈n/m⌉` elements
`0, m, 2m, …` and the slice `message[k : k+m]` is `take m (drop k s)`. -/

def split_message (maxLength : Nat) (s : List Char) : List (List Char) :=
  (List.range ((s.length + maxLength - 1) / maxLength)).map
    (fun i => (s.drop (i * maxLength)).take maxLength)

/-- The transport limit used by the scripts (`max_length=4096`). -/
def MAX_LENGTH : Nat := 4096

/-- String-level chunking, as delivered by the notifier. -/
def splitMessageStr (s : String) : List String :=
  (split_message MAX_LENGTH s.data).map (fun c => ⟨c⟩)

/-- `send_telegram_message`: returns the list of texts POSTed to the
transport.  An empty message is skipped (`if not message: return`);
otherwise each chunk of the split is sent as its own message. -/
def send_telegram_message (message : String) : List String :=
  if message = "" then [] else splitMessageStr message

/-- Rendering of one outcome category: `"\n".join(messages)`. -/
def renderSection (messages : List String) : String :=
  String.intercalate "\n" messages

/-! ## The batch scheduler (pymysql variant)

The per-run report is five append-only message lists; the database is
abstracted as three `Except`-valued behaviours (the catalog existence
query, DROP PARTITION, ADD PARTITION), where `Except.error e` stands for
`pymysql.MySQLError` with message `e`.  Each triple-level step returns the
updated report together with the DDL commands it issued, and—for the
create protocol—an abort message when an exception escapes the triple
(the existence check of `add_partitions` is executed *outside* its
`try`, `pymysql 实现版.py` line 131). -/

structure Report where
  errors : List String
  adds : List String
  deletes : List String
  notExists : List String
  already : List String
deriving DecidableEq, Repr

def Report.empty : Report := ⟨[], [], [], [], []⟩

inductive DDLCmd where
  | addP (dbs tbs ident : String) (boundary : Int)
  | dropP (dbs tbs ident : String)
deriving DecidableEq, Repr

structure DBBehavior where
  check : String → String → String → Except String Bool
  dropPart : String → String → String → Except String Unit
  addPart : String → String → String → Int → Except String Unit

def queryErrMsg (e : String) : String := "Error executing query: " ++ e

def deletedMsg (ident dbs tbs : String) : String :=
  "Deleted partition " ++ ident ++ " for table " ++ dbs ++ "." ++ tbs ++ "."

def deleteErrMsg (ident dbs tbs e : String) : String :=
  "Error deleting partition " ++ ident ++ " for table " ++ dbs ++ "." ++ tbs ++ ": " ++ e

def notExistMsg (ident dbs tbs : String) : String :=
  "Partition " ++ ident ++ " does not exist for table " ++ dbs ++ "." ++ tbs ++
    ", skipping deletion"

def addedMsg (ident dbs tbs : String) : String :=
  "Added partition " ++ ident ++ " for table " ++ dbs ++ "." ++ tbs ++ "."

def addErrMsg (ident dbs tbs e : String) : String :=
  "Error adding partition " ++ ident ++ " for table " ++ dbs ++ "." ++ tbs ++ ": " ++ e

def alreadyMsg (ident dbs tbs : String) : String :=
  "Partition " ++ ident ++ " already exists for table " ++ dbs ++ "." ++ tbs ++
    ", skipping addition"

/-- Retire protocol for one (database, table) pair
(`pymysql 实现版.py` lines 93-110): the existence check runs inside the
`try`, so a check failure is recorded and the batch continues. -/
def delTriple (b : DBBehavior) (dbs tbs ident : String) (r : Report) :
    Report × List DDLCmd :=
  match b.check dbs tbs ident with
  | .error e => ({ r with errors := r.errors ++ [queryErrMsg e] }, [])
  | .ok true =>
    match b.dropPart dbs tbs ident with
    | .ok _ => ({ r with deletes := r.deletes ++ [deletedMsg ident dbs tbs] },
                [.dropP dbs tbs ident])
    | .error e => ({ r with errors := r.errors ++ [deleteErrMsg ident dbs tbs e] },
                   [.dropP dbs tbs ident])
  | .ok false => ({ r with notExists := r.notExists ++ [notExistMsg ident dbs tbs] }, [])

/-- Create protocol for one (database, table) pair
(`pymysql 实现版.py` lines 129-146).  The existence check sits *before*
the `try`, so a check failure is returned as an abort (third component)
instead of being recorded; ADD failures are caught and recorded. -/
def addTriple (b : DBBehavior) (dbs tbs ident : String) (boundary : Int) (r : Report) :
    Report × List DDLCmd × Option String :=
  match b.check dbs tbs ident with
  | .error e => (r, [], some e)
  | .ok false =>
    match b.addPart dbs tbs ident boundary with
    | .ok _ => ({ r with adds := r.adds ++ [addedMsg ident dbs tbs] },
                [.addP dbs tbs ident boundary], none)
    | .error e => ({ r with errors := r.errors ++ [addErrMsg ident dbs tbs e] },
                   [.addP dbs tbs ident boundary], none)
  | .ok true => ({ r with already := r.already ++ [alreadyMsg ident dbs tbs] }, [], none)

/-- One call of `del_partitions(count_num, db_list, table_list)`: computes
the retire identifier for the offset and runs the retire protocol over
the database × table cross product. -/
def del_partitions (b : DBBehavior) (now : Date) (delDay countNum : Nat)
    (dbList tableList : List String) (st : Report × List DDLCmd) :
    Report × List DDLCmd :=
  let ident := partitionName (subDays (delDay + countNum) now)
  dbList.foldl
    (fun st0 dbs =>
      tableList.foldl
        (fun st1 tbs =>
          let p := delTriple b dbs tbs ident st1.1
          (p.1, st1.2 ++ p.2))
        st0)
    st

/-! ## Boundary instants (milliseconds since epoch)

The scripts compute `int(target.replace(hour=0, …).timestamp() * 1000)`
on an aware datetime obtained by adding a `timedelta` to
`datetime.now(pytz.timezone('Europe/London'))`.  With `pytz`, the
`tzinfo` (and hence the UTC offset) attached by `now` survives the
`timedelta` arithmetic and the `replace`, so the resulting instant is the
target date's midnight *at the UTC offset in effect at the sampled
"now"*.  Days since the epoch are counted from 1970-01-01 (the model is
used for years ≥ 1970, where the scripts operate). -/

def daysFrom1970 : Nat → Nat
  | 0 => 0
  | y + 1 => if y + 1 ≤ 1970 then 0 else daysFrom1970 y + daysInYear y

def dayOfYear (d : Date) : Nat :=
  ((List.range (d.month - 1)).map (fun k => daysInMonth d.year (k + 1))).sum + d.day

def epochDays (d : Date) : Nat := daysFrom1970 d.year + dayOfYear d - 1

/-- Day of week of an epoch-day count, with Sunday = 0 (1970-01-01 was a
Thursday). -/
def dayOfWeek (n : Nat) : Nat := (n + 4) % 7

/-- Day of month of the last Sunday of a 31-day month. -/
def lastSundayOfMonth (y m : Nat) : Nat :=
  31 - dayOfWeek (epochDays ⟨y, m, 31⟩)

/-- Europe/London UTC offset in minutes on a civil date, per the IANA
rules the `pytz` zone implements: 60 (BST) from the last Sunday of March
to the day before the last Sunday of October, otherwise 0 (GMT).  The
model is date-granular: it gives the offset at instants away from the
01:00 UTC transition, which is where the scripts sample `now`. -/
def londonOffsetMinutes (d : Date) : Nat :=
  let mds := d.month * 100 + d.day
  if 300 + lastSundayOfMonth d.year 3 ≤ mds ∧ mds < 1000 + lastSundayOfMonth d.year 10
  then 60 else 0

/-- The boundary value the create protocol passes to ADD PARTITION:
midnight of `now + delta` days rendered at the UTC offset sampled at
`now` (the stale-`tzinfo` behaviour described above), in milliseconds. -/
def boundaryMillis (now : Date) (delta : Nat) : Int :=
  ((epochDays (addDays delta now) * 1440 : Int) - londonOffsetMinutes now) * 60000

/-- Comparison value taken from the claim's words: the milliseconds of
the midnight instant of date `d` in the configured (Europe/London) time
zone, i.e. midnight rendered at the offset in effect on `d` itself. -/
def midnightMillisLondon (d : Date) : Int :=
  ((epochDays d * 1440 : Int) - londonOffsetMinutes d) * 60000

/-- One call of `add_partitions(count_num, db_list, table_list)`: computes
the create identifier and boundary for the offset and runs the create
protocol over the cross product.  The third component of the state is the
pending abort: once an existence-check exception has escaped, nothing
further runs (the exception propagates to the caller's handler). -/
def add_partitions (b : DBBehavior) (now : Date) (addDay intervalDays countNum : Nat)
    (dbList tableList : List String) (st : Report × List DDLCmd × Option String) :
    Report × List DDLCmd × Option String :=
  let ident := partitionName (addDays (addDay + countNum * intervalDays) now)
  let boundary := boundaryMillis now (addDay + countNum * intervalDays)
  dbList.foldl
    (fun st0 dbs =>
      tableList.foldl
        (fun st1 tbs =>
          match st1.2.2 with
          | some _ => st1
          | none =>
            let p := addTriple b dbs tbs ident boundary st1.1
            (p.1, st1.2.1 ++ p.2.1, p.2.2))
        st0)
    st

/-- The batch of `manage_db_partitions` (`pymysql 实现版.py` lines
150-154): all retire offsets `0..7`, then all create offsets `0..7`,
aborting the remainder if an exception escapes a create triple.  The
nested closures read `self.del_day`, `self.add_day` and
`self.interval_days`; following the spec's OffsetWindow these are the
run's configuration parameters here.  Returns the final report, the DDL
issued, and the abort message if any. -/
def manage_db_partitions (b : DBBehavior) (now : Date)
    (delDay addDay intervalDays : Nat) (dbList tableList : List String) :
    Report × List DDLCmd × Option String :=
  let delSt := (List.range 8).foldl
    (fun st i => del_partitions b now delDay i dbList tableList st)
    (Report.empty, [])
  (List.range 8).foldl
    (fun st i => add_partitions b now addDay intervalDays i dbList tableList st)
    (delSt.1, delSt.2, none)

/-! ## Catalog semantics for idempotence claims

To speak about the partition set after a run, the database behaviours are
instantiated with an explicit catalog: the existence query answers
membership, DDL commands update the catalog (`ALTER TABLE … ADD/DROP
PARTITION` semantics), and neither ever fails. -/

abbrev PartKey := String × String × String

def catalogDB (parts : List PartKey) : DBBehavior where
  check := fun dbs tbs ident => .ok (decide ((dbs, tbs, ident) ∈ parts))
  dropPart := fun _ _ _ => .ok ()
  addPart := fun _ _ _ _ => .ok ()

def applyDDL (parts : List PartKey) : DDLCmd → List PartKey
  | .addP dbs tbs ident _ =>
    if (dbs, tbs, ident) ∈ parts then parts else parts ++ [(dbs, tbs, ident)]
  | .dropP dbs tbs ident => parts.erase (dbs, tbs, ident)

/-- Run the create protocol for one triple against a live catalog:
returns the catalog after the issued DDL, the report delta, the DDL
issued, and the abort message (always `none` against a healthy
catalog). -/
def createOnce (parts : List PartKey) (dbs tbs ident : String) (boundary : Int) :
    List PartKey × Report × List DDLCmd × Option String :=
  let p := addTriple (catalogDB parts) dbs tbs ident boundary Report.empty
  (p.2.1.foldl applyDDL parts, p.1, p.2.1, p.2.2)

/-! ## The single-statement executor (`Batch-SQL`)

`DBExecutor.execute_sql` (`db_executor.py` lines 481-529) and
`MySQLExecutor.execute_sql` (`mysql_executor.py` lines 198-246) have the
same shape; the environment abstracts `connect` (returns a connection
handle or raises), `execute_query` on that connection (returns either
SELECT rows or an affected-row count, or raises; rollback/commit and
logging carry no result data), and `save_to_csv` (returns a path or
raises).  The model returns the result record together with the list of
connections closed in the `finally` block. -/

inductive QueryOutput where
  | selectRows (rows : List String)
  | affected (n : Nat)
deriving DecidableEq, Repr

structure ExecEnv where
  connect : Except String Nat
  executeQuery : Nat → Except String QueryOutput
  saveCsv : List String → Except String String

structure ExecResult where
  success : Bool
  isSelect : Bool
  data : Option (List String)
  affectedRows : Nat
  csvPath : String
  error : Option String
deriving DecidableEq, Repr

def ExecResult.init : ExecResult :=
  { success := false, isSelect := false, data := none, affectedRows := 0,
    csvPath := "", error := none }

/-- `execute_sql`: every failure is caught and stored in `error`; a
connection, once established, is closed on every path. -/
def execute_sql (env : ExecEnv) : ExecResult × List Nat :=
  match env.connect with
  | .error e => ({ ExecResult.init with error := some e }, [])
  | .ok c =>
    match env.executeQuery c with
    | .error e => ({ ExecResult.init with error := some e }, [c])
    | .ok (.affected n) =>
      ({ ExecResult.init with success := true, affectedRows := n }, [c])
    | .ok (.selectRows rows) =>
      if rows = [] then
        ({ ExecResult.init with success := true, isSelect := true, data := some rows }, [c])
      else
        match env.saveCsv rows with
        | .ok path =>
          ({ ExecResult.init with
              success := true
              isSelect := true
              data := some rows
              csvPath := path }, [c])
        | .error e =>
          ({ ExecResult.init with
              isSelect := true
              data := some rows
              error := some e }, [c])

/-! ## Properties of decimal rendering -/

theorem natDigitsAux_congr : ∀ f₁ f₂ n : Nat, n < f₁ → n < f₂ →
    natDigitsAux f₁ n = natDigitsAux f₂ n := by
  intro f₁
  induction f₁ with
  | zero => intro f₂ n h₁ h₂; exact absurd h₁ (Nat.not_lt_zero n)
  | succ f₁ IH =>
    intro f₂ n h₁ h₂
    cases f₂ with
    | zero => exact absurd h₂ (Nat.not_lt_zero n)
    | succ f₂ =>
      simp only [natDigitsAux]
      by_cases h : n < 10
      · simp [h]
      · simp only [if_neg h]
        rw [IH f₂ (n / 10)
          (by have := Nat.div_lt_self (by omega : 0 < n) (by omega : 1 < 10); omega)
          (by have := Nat.div_lt_self (by omega : 0 < n) (by omega : 1 < 10); omega)]

theorem natDigits_unfold (n : Nat) :
    natDigits n =
      if n < 10 then [digitChar n] else natDigits (n / 10) ++ [digitChar (n % 10)] := by
  by_cases h : n < 10
  · rw [if_pos h]; unfold natDigits; simp [natDigitsAux, h]
  · rw [if_neg h]
    show natDigitsAux (n + 1) n = natDigitsAux (n / 10 + 1) (n / 10) ++ [digitChar (n % 10)]
    have h1 : natDigitsAux (n + 1) n = natDigitsAux n (n / 10) ++ [digitChar (n % 10)] := by
      simp [natDigitsAux, h]
    rw [h1, natDigitsAux_congr n (n / 10 + 1) (n / 10)
      (by have := Nat.div_lt_self (by omega : 0 < n) (by omega : 1 < 10); omega)
      (Nat.lt_succ_self _)]

theorem padDigits_length : ∀ w n, (padDigits w n).length = w := by
  intro w
  induction w with
  | zero => intro n; rfl
  | succ w IH => intro n; simp [padDigits, IH]

theorem padDigits_one (n : Nat) : padDigits 1 n = [digitChar (n / 1)] := rfl

theorem padDigits_append : ∀ w₁ w₂ a b : Nat, a < 10 ^ w₁ → b < 10 ^ w₂ →
    padDigits (w₁ + w₂) (a * 10 ^ w₂ + b) = padDigits w₁ a ++ padDigits w₂ b := by
  intro w₁
  induction w₁ with
  | zero =>
    intro w₂ a b ha hb
    have ha0 : a = 0 := by simpa using Nat.lt_one_iff.mp ha
    subst ha0
    simp [padDigits]
  | succ w₁ IH =>
    intro w₂ a b ha hb
    have hpow : (10 : Nat) ^ (w₁ + w₂) = 10 ^ w₂ * 10 ^ w₁ := by
      rw [pow_add, Nat.mul_comm]
    have hsucc : w₁ + 1 + w₂ = (w₁ + w₂) + 1 := by omega
    rw [hsucc]
    have hhead : (a * 10 ^ w₂ + b) / 10 ^ (w₁ + w₂) = a / 10 ^ w₁ := by
      rw [hpow, ← Nat.div_div_eq_div_mul]
      congr 1
      rw [Nat.mul_comm a _, Nat.mul_add_div (Nat.pos_pow_of_pos w₂ (by omega)),
        Nat.div_eq_of_lt hb, Nat.add_zero]
    have hbound : a % 10 ^ w₁ * 10 ^ w₂ + b < 10 ^ w₁ * 10 ^ w₂ := by
      have hr : a % 10 ^ w₁ + 1 ≤ 10 ^ w₁ :=
        Nat.mod_lt a (Nat.pos_pow_of_pos w₁ (by omega))
      calc a % 10 ^ w₁ * 10 ^ w₂ + b
          < a % 10 ^ w₁ * 10 ^ w₂ + 10 ^ w₂ := by omega
        _ = (a % 10 ^ w₁ + 1) * 10 ^ w₂ := by ring
        _ ≤ 10 ^ w₁ * 10 ^ w₂ := Nat.mul_le_mul_right _ hr
    have htail : (a * 10 ^ w₂ + b) % 10 ^ (w₁ + w₂) = a % 10 ^ w₁ * 10 ^ w₂ + b := by
      have hdecomp : a * 10 ^ w₂ + b =
          a % 10 ^ w₁ * 10 ^ w₂ + b + a / 10 ^ w₁ * (10 ^ w₁ * 10 ^ w₂) := by
        have := Nat.div_add_mod a (10 ^ w₁)
        calc a * 10 ^ w₂ + b = (10 ^ w₁ * (a / 10 ^ w₁) + a % 10 ^ w₁) * 10 ^ w₂ + b := by
              rw [this]
          _ = a % 10 ^ w₁ * 10 ^ w₂ + b + a / 10 ^ w₁ * (10 ^ w₁ * 10 ^ w₂) := by ring
      rw [hdecomp, hpow, Nat.mul_comm (10 ^ w₂) (10 ^ w₁), Nat.add_mul_mod_self_right,
        Nat.mod_eq_of_lt hbound]
    simp only [padDigits, hhead, htail]
    rw [IH w₂ (a % 10 ^ w₁) b (Nat.mod_lt a (Nat.pos_pow_of_pos w₁ (by omega))) hb]
    simp

theorem natDigits_eq_padDigits : ∀ w n : Nat, 10 ^ w ≤ n → n < 10 ^ (w + 1) →
    natDigits n = padDigits (w + 1) n := by
  intro w
  induction w with
  | zero =>
    intro n h₁ h₂
    rw [natDigits_unfold, if_pos (by simpa using h₂), padDigits_one]
    simp
  | succ w IH =>
    intro n h₁ h₂
    have h10 : ¬ n < 10 := by
      have : (10 : Nat) ^ 1 ≤ 10 ^ (w + 1) := Nat.pow_le_pow_right (by omega) (by omega)
      simp only [pow_one] at this
      omega
    rw [natDigits_unfold, if_neg h10]
    have hdiv₁ : 10 ^ w ≤ n / 10 := by
      rw [Nat.le_div_iff_mul_le (by omega : 0 < 10)]
      calc 10 ^ w * 10 = 10 ^ (w + 1) := by rw [pow_succ]
        _ ≤ n := h₁
    have hdiv₂ : n / 10 < 10 ^ (w + 1) := by
      rw [Nat.div_lt_iff_lt_mul (by omega : 0 < 10)]
      calc n < 10 ^ (w + 2) := h₂
        _ = 10 ^ (w + 1) * 10 := by rw [pow_succ]
    rw [IH (n / 10) hdiv₁ hdiv₂]
    have := padDigits_append (w + 1) 1 (n / 10) (n % 10) hdiv₂
      (by simpa using Nat.mod_lt n (by omega : 0 < 10))
    rw [padDigits_one] at this
    have hn : n / 10 * 10 ^ 1 + n % 10 = n := by
      simp only [pow_one]
      omega
    rw [hn] at this
    rw [show w + 1 + 1 = w + 2 from rfl] at this
    rw [this]
    simp [Nat.div_one]

theorem daysInMonth_le (y m : Nat) : daysInMonth y m ≤ 31 := by
  unfold daysInMonth
  split
  · split <;> omega
  · split <;> omega

theorem daysInMonth_pos (y m : Nat) : 1 ≤ daysInMonth y m := by
  unfold daysInMonth
  split
  · split <;> omega
  · split <;> omega

theorem pad2_eq (n : Nat) (h : n < 100) : pad2 n = padDigits 2 n := by
  by_cases h10 : n < 10
  · have hnd : natDigits n = [digitChar n] := by rw [natDigits_unfold, if_pos h10]
    have hpd : padDigits 2 n = [digitChar (n / 10), digitChar (n % 10 / 1)] := rfl
    rw [hpd, Nat.div_eq_of_lt h10, Nat.mod_eq_of_lt h10, Nat.div_one]
    unfold pad2 zfill
    rw [hnd]
    simp [List.replicate]
    decide
  · have hnd : natDigits n = padDigits 2 n :=
      natDigits_eq_padDigits 1 n (by simpa using Nat.not_lt.mp h10) (by simpa using h)
    unfold pad2 zfill
    rw [hnd, padDigits_length]
    simp

theorem partitionChars_eq (d : Date) (h : fourDigitDate d) :
    partitionChars d = 'p' :: padDigits 8 (dateKey d) := by
  obtain ⟨⟨⟨hm1, hm2, hd1, hd2⟩, hy1, hy2⟩, hy3⟩ := h
  have hdle : d.day ≤ 31 := le_trans hd2 (daysInMonth_le d.year d.month)
  have hyd : natDigits d.year = padDigits 4 d.year :=
    natDigits_eq_padDigits 3 d.year (by norm_num; omega) (by norm_num; omega)
  have hmd : pad2 d.month = padDigits 2 d.month := pad2_eq d.month (by omega)
  have hdd : pad2 d.day = padDigits 2 d.day := pad2_eq d.day (by omega)
  have hsplit₁ : padDigits 8 (dateKey d) =
      padDigits 4 d.year ++ padDigits 4 (d.month * 100 + d.day) := by
    have := padDigits_append 4 4 d.year (d.month * 100 + d.day)
      (by norm_num; omega) (by norm_num; omega)
    rw [show d.year * 10 ^ 4 + (d.month * 100 + d.day) = dateKey d by
      unfold dateKey; ring] at this
    exact this
  have hsplit₂ : padDigits 4 (d.month * 100 + d.day) =
      padDigits 2 d.month ++ padDigits 2 d.day := by
    have := padDigits_append 2 2 d.month d.day (by norm_num; omega) (by norm_num; omega)
    rw [show d.month * 10 ^ 2 + d.day = d.month * 100 + d.day by norm_num] at this
    exact this
  unfold partitionChars
  rw [hyd, hmd, hdd, hsplit₁, hsplit₂, List.append_assoc]

/-! ## Lexicographic comparison of identifiers -/

theorem charList_lt_cons_iff {a b : Char} {l₁ l₂ : List Char} :
    List.lt (a :: l₁) (b :: l₂) ↔ a < b ∨ (¬ a < b ∧ ¬ b < a ∧ List.lt l₁ l₂) := by
  constructor
  · intro h
    cases h with
    | head _ _ hab => exact Or.inl hab
    | tail h₁ h₂ h₃ => exact Or.inr ⟨h₁, h₂, h₃⟩
  · rintro (h | ⟨h₁, h₂, h₃⟩)
    · exact List.lt.head _ _ h
    · exact List.lt.tail h₁ h₂ h₃

theorem nil_not_lt_nil : ¬ List.lt ([] : List Char) [] := by
  intro h
  cases h

instance decListLtChar (l₁ l₂ : List Char) : Decidable (List.lt l₁ l₂) :=
  List.hasDecidableLt l₁ l₂

theorem digitChar_lt_iff : ∀ i : Nat, i < 10 → ∀ j : Nat, j < 10 →
    (digitChar i < digitChar j ↔ i < j) := by decide

theorem digitVal_digitChar : ∀ i : Nat, i < 10 → digitVal (digitChar i) = i := by decide

/-- Splitting a comparison along a euclidean division. -/
theorem lt_iff_div_mod (P n₁ n₂ : Nat) (hP : 0 < P) :
    n₁ < n₂ ↔ (n₁ / P < n₂ / P ∨ (n₁ / P = n₂ / P ∧ n₁ % P < n₂ % P)) := by
  have e₁ := Nat.div_add_mod n₁ P
  have e₂ := Nat.div_add_mod n₂ P
  constructor
  · intro h
    rcases Nat.lt_or_ge (n₁ / P) (n₂ / P) with hq | hq
    · exact Or.inl hq
    · have hq' : n₁ / P ≤ n₂ / P := Nat.div_le_div_right (Nat.le_of_lt h)
      have heq : n₁ / P = n₂ / P := Nat.le_antisymm hq' hq
      refine Or.inr ⟨heq, ?_⟩
      rw [heq] at e₁
      omega
  · rintro (hq | ⟨heq, hr⟩)
    · calc n₁ = P * (n₁ / P) + n₁ % P := e₁.symm
        _ < P * (n₁ / P) + P := by have := Nat.mod_lt n₁ hP; omega
        _ = P * (n₁ / P + 1) := by ring
        _ ≤ P * (n₂ / P) := Nat.mul_le_mul_left P hq
        _ ≤ P * (n₂ / P) + n₂ % P := Nat.le_add_right _ _
        _ = n₂ := e₂
    · rw [heq] at e₁
      omega

theorem padDigits_lt_iff : ∀ w n₁ n₂ : Nat, n₁ < 10 ^ w → n₂ < 10 ^ w →
    (List.lt (padDigits w n₁) (padDigits w n₂) ↔ n₁ < n₂) := by
  intro w
  induction w with
  | zero =>
    intro n₁ n₂ h₁ h₂
    have e₁ : n₁ = 0 := by simpa using Nat.lt_one_iff.mp h₁
    have e₂ : n₂ = 0 := by simpa using Nat.lt_one_iff.mp h₂
    subst e₁; subst e₂
    simpa [padDigits] using nil_not_lt_nil
  | succ w IH =>
    intro n₁ n₂ h₁ h₂
    have hP : (0 : Nat) < 10 ^ w := Nat.pos_pow_of_pos w (by omega)
    have hq₁ : n₁ / 10 ^ w < 10 := by
      rw [Nat.div_lt_iff_lt_mul hP]
      calc n₁ < 10 ^ (w + 1) := h₁
        _ = 10 * 10 ^ w := by ring
    have hq₂ : n₂ / 10 ^ w < 10 := by
      rw [Nat.div_lt_iff_lt_mul hP]
      calc n₂ < 10 ^ (w + 1) := h₂
        _ = 10 * 10 ^ w := by ring
    have hr₁ : n₁ % 10 ^ w < 10 ^ w := Nat.mod_lt n₁ hP
    have hr₂ : n₂ % 10 ^ w < 10 ^ w := Nat.mod_lt n₂ hP
    simp only [padDigits]
    rw [charList_lt_cons_iff, digitChar_lt_iff _ hq₁ _ hq₂, digitChar_lt_iff _ hq₂ _ hq₁,
      IH _ _ hr₁ hr₂, lt_iff_div_mod (10 ^ w) n₁ n₂ hP]
    constructor
    · rintro (h | ⟨ha, hb, hc⟩)
      · exact Or.inl h
      · exact Or.inr ⟨by omega, hc⟩
    · rintro (h | ⟨heq, hr⟩)
      · exact Or.inl h
      · exact Or.inr ⟨by omega, by omega, hr⟩

theorem dateLt_iff_key (d₁ d₂ : Date) (h₁ : goodDate d₁) (h₂ : goodDate d₂) :
    dateLt d₁ d₂ ↔ dateKey d₁ < dateKey d₂ := by
  obtain ⟨hm1, hm2, hd1, hd2⟩ := h₁
  obtain ⟨hm1', hm2', hd1', hd2'⟩ := h₂
  have hb : d₁.day ≤ 31 := le_trans hd2 (daysInMonth_le _ _)
  have hb' : d₂.day ≤ 31 := le_trans hd2' (daysInMonth_le _ _)
  unfold dateLt dateKey
  omega

theorem dateKey_lt_pow8 (d : Date) (h : pyDate d) : dateKey d < 10 ^ 8 := by
  obtain ⟨⟨hm1, hm2, hd1, hd2⟩, hy1, hy2⟩ := h
  have hb : d.day ≤ 31 := le_trans hd2 (daysInMonth_le _ _)
  unfold dateKey
  norm_num
  omega

theorem padDigits_eight (k : Nat) : padDigits 8 k =
    [digitChar (k / 10000000),
     digitChar (k % 10000000 / 1000000),
     digitChar (k % 10000000 % 1000000 / 100000),
     digitChar (k % 10000000 % 1000000 % 100000 / 10000),
     digitChar (k % 10000000 % 1000000 % 100000 % 10000 / 1000),
     digitChar (k % 10000000 % 1000000 % 100000 % 10000 % 1000 / 100),
     digitChar (k % 10000000 % 1000000 % 100000 % 10000 % 1000 % 100 / 10),
     digitChar (k % 10000000 % 1000000 % 100000 % 10000 % 1000 % 100 % 10 / 1)] := rfl

/-- Round trip: parsing the rendered identifier of a four-digit-year date
recovers the date. -/
theorem parse_partitionName (d : Date) (h : fourDigitDate d) :
    parseIdent (partitionName d) = some d := by
  have hk : dateKey d < 10 ^ 8 := dateKey_lt_pow8 d h.1
  have hchars := partitionChars_eq d h
  obtain ⟨⟨⟨hm1, hm2, hd1, hd2⟩, hy1, hy2⟩, hy3⟩ := h
  have hb : d.day ≤ 31 := le_trans hd2 (daysInMonth_le _ _)
  obtain ⟨y, m, dd⟩ := d
  simp only [dateKey] at hk
  norm_num at hk hchars ⊢
  unfold partitionName
  rw [hchars, padDigits_eight]
  simp only [parseIdent, dateKey]
  simp only at hm1 hm2 hd1 hb hy2 hy3 ⊢
  rw [digitVal_digitChar _ (by omega), digitVal_digitChar _ (by omega),
    digitVal_digitChar _ (by omega), digitVal_digitChar _ (by omega),
    digitVal_digitChar _ (by omega), digitVal_digitChar _ (by omega),
    digitVal_digitChar _ (by omega), digitVal_digitChar _ (by omega)]
  simp only [Option.some.injEq, Date.mk.injEq]
  refine ⟨by omega, by omega, by omega⟩

/-- Lexical order of rendered identifiers coincides with chronological
order of the dates, over four-digit-year dates. -/
theorem partitionName_lt_iff (d₁ d₂ : Date)
    (h₁ : fourDigitDate d₁) (h₂ : fourDigitDate d₂) :
    (partitionName d₁ < partitionName d₂ ↔ dateLt d₁ d₂) := by
  rw [String.lt_iff_toList_lt]
  have hlex : ∀ l₁ l₂ : List Char, (l₁ < l₂) ↔ List.lt l₁ l₂ := fun l₁ l₂ =>
    (List.lt_iff_lex_lt l₁ l₂).symm
  rw [hlex]
  show List.lt (partitionChars d₁) (partitionChars d₂) ↔ dateLt d₁ d₂
  rw [partitionChars_eq d₁ h₁, partitionChars_eq d₂ h₂, charList_lt_cons_iff]
  have hp : ¬ ('p' : Char) < 'p' := by decide
  simp only [hp, false_or, not_false_eq_true, true_and]
  rw [padDigits_lt_iff 8 _ _ (dateKey_lt_pow8 d₁ h₁.1) (dateKey_lt_pow8 d₂ h₂.1)]
  rw [dateLt_iff_key d₁ d₂ h₁.1.1 h₂.1.1]

/-! ## Monotonicity of day arithmetic -/

theorem goodDate_nextDay (d : Date) (h : goodDate d) : goodDate (nextDay d) := by
  obtain ⟨hm1, hm2, hd1, hd2⟩ := h
  unfold nextDay
  split
  · rename_i hc
    exact ⟨hm1, hm2, Nat.succ_le_succ (Nat.zero_le _), hc⟩
  · split
    · rename_i hc hm
      exact ⟨Nat.succ_le_succ (Nat.zero_le _), hm, Nat.le_refl 1, daysInMonth_pos _ _⟩
    · exact ⟨Nat.le_refl 1, (by omega : (1 : Nat) ≤ 12), Nat.le_refl 1, daysInMonth_pos _ _⟩

theorem dateKey_lt_nextDay (d : Date) (h : goodDate d) :
    dateKey d < dateKey (nextDay d) := by
  obtain ⟨hm1, hm2, hd1, hd2⟩ := h
  have hb : d.day ≤ 31 := le_trans hd2 (daysInMonth_le _ _)
  unfold nextDay
  split
  · show d.year * 10000 + d.month * 100 + d.day <
      d.year * 10000 + d.month * 100 + (d.day + 1)
    omega
  · split
    · show d.year * 10000 + d.month * 100 + d.day <
        d.year * 10000 + (d.month + 1) * 100 + 1
      omega
    · show d.year * 10000 + d.month * 100 + d.day <
        (d.year + 1) * 10000 + 1 * 100 + 1
      omega

theorem goodDate_addDays (n : Nat) (d : Date) (h : goodDate d) :
    goodDate (addDays n d) := by
  induction n with
  | zero => exact h
  | succ n IH =>
    unfold addDays at IH ⊢
    rw [Function.iterate_succ_apply']
    exact goodDate_nextDay _ IH

theorem dateKey_lt_addDays (n : Nat) (d : Date) (h : goodDate d) (hn : 1 ≤ n) :
    dateKey d < dateKey (addDays n d) := by
  induction n with
  | zero => omega
  | succ n IH =>
    unfold addDays at IH ⊢
    rw [Function.iterate_succ_apply']
    by_cases h0 : n = 0
    · subst h0
      simpa using dateKey_lt_nextDay d h
    · have step := dateKey_lt_nextDay (nextDay^[n] d)
        (goodDate_addDays n d h)
      have := IH (by omega)
      unfold addDays at step
      omega

theorem dateKey_addDays_strict_mono (a b : Nat) (d : Date) (h : goodDate d)
    (hab : a < b) : dateKey (addDays a d) < dateKey (addDays b d) := by
  have hdecomp : addDays b d = addDays (b - a) (addDays a d) := by
    unfold addDays
    rw [← Function.iterate_add_apply]
    congr 1
    omega
  rw [hdecomp]
  exact dateKey_lt_addDays (b - a) (addDays a d) (goodDate_addDays a d h) (by omega)

theorem dateKey_addDays_mono (a b : Nat) (d : Date) (h : goodDate d)
    (hab : a ≤ b) : dateKey (addDays a d) ≤ dateKey (addDays b d) := by
  rcases Nat.lt_or_ge a b with hlt | hge
  · exact Nat.le_of_lt (dateKey_addDays_strict_mono a b d h hlt)
  · have : a = b := by omega
    subst this
    exact Nat.le_refl _

/-! ## Properties of message chunking -/

theorem split_message_length (m : Nat) (s : List Char) :
    (split_message m s).length = (s.length + m - 1) / m := by
  unfold split_message
  simp

theorem split_message_chunk_le (m : Nat) (s c : List Char)
    (hc : c ∈ split_message m s) : c.length ≤ m := by
  unfold split_message at hc
  simp only [List.mem_map] at hc
  obtain ⟨i, -, rfl⟩ := hc
  rw [List.length_take]
  exact Nat.min_le_left _ _

theorem split_message_join (m : Nat) (hm : 1 ≤ m) :
    ∀ s : List Char, (split_message m s).flatten = s := by
  suffices H : ∀ n : Nat, ∀ s : List Char, s.length = n → (split_message m s).flatten = s by
    intro s
    exact H s.length s rfl
  intro n
  induction n using Nat.strong_induction_on with
  | _ n IH =>
    intro s hlen
    by_cases h0 : s.length = 0
    · have hs : s = [] := List.length_eq_zero.mp h0
      subst hs
      unfold split_message
      rw [show (([] : List Char).length + m - 1) / m = 0 from
        Nat.div_eq_of_lt (by simp; omega)]
      simp
    · have hlen1 : 1 ≤ s.length := by omega
      have hcount : (s.length + m - 1) / m = (s.length - 1) / m + 1 := by
        rw [show s.length + m - 1 = (s.length - 1) + m by omega,
          Nat.add_div_right _ (by omega)]
      have key : (List.range ((s.length - 1) / m)).map
          ((fun i => (s.drop (i * m)).take m) ∘ Nat.succ) = split_message m (s.drop m) := by
        unfold split_message
        rw [List.length_drop]
        have hc2 : (s.length - m + m - 1) / m = (s.length - 1) / m := by
          by_cases hm2 : s.length ≤ m
          · rw [Nat.div_eq_of_lt (by omega), Nat.div_eq_of_lt (by omega)]
          · congr 1
            omega
        rw [hc2]
        apply List.map_congr_left
        intro i _
        show (s.drop ((i + 1) * m)).take m = ((s.drop m).drop (i * m)).take m
        rw [List.drop_drop]
        rw [show m + i * m = (i + 1) * m by ring]
      unfold split_message
      rw [hcount, List.range_succ_eq_map, List.map_cons, List.map_map, List.flatten_cons, key,
        IH (s.length - m) (by omega) (s.drop m) (by rw [List.length_drop])]
      simp [List.take_append_drop]

/-- Concatenation of a list of strings, via their character lists. -/
def concatStrings (l : List String) : String := ⟨(l.map String.data).flatten⟩

theorem concatStrings_splitMessageStr (s : String) :
    concatStrings (splitMessageStr s) = s := by
  unfold concatStrings splitMessageStr
  rw [List.map_map]
  have hdata : (String.data ∘ fun c : List Char => (⟨c⟩ : String)) = fun c => c := rfl
  rw [hdata, List.map_id', split_message_join MAX_LENGTH (by norm_num [MAX_LENGTH]) s.data]

/-! ## Claim theorems -/

/-- A database whose existence check always raises for database `db1` and
reports "absent" everywhere else; DDL statements themselves succeed. -/
def oracleFailsDb1 : DBBehavior where
  check := fun dbs _ _ => if dbs = "db1" then .error "boom" else .ok false
  dropPart := fun _ _ _ => .ok ()
  addPart := fun _ _ _ _ => .ok ()

set_option maxRecDepth 1000000 in
/-- C1: with `db1`'s existence check always raising and `db2` healthy, the
batch run of the pymysql variant does NOT isolate the failure at triple
level: the retire phase records eight check errors (its check sits inside
the `try`), but the first create triple's check exception escapes
(`add_partitions` checks outside its `try`), aborting the whole create
phase — the abort message is returned, no Error outcome is recorded for
the failing create triples, and the healthy target `db2` never reaches an
Added/AlreadyExists outcome, contrary to the claim. -/
theorem c1_failing_run :
    manage_db_partitions oracleFailsDb1 ⟨2024, 10, 23⟩ 10 7 1 ["db1", "db2"] ["t"] =
      ({ errors := List.replicate 8 (queryErrMsg "boom")
         adds := []
         deletes := []
         notExists :=
           [notExistMsg "p20241013" "db2" "t", notExistMsg "p20241012" "db2" "t",
            notExistMsg "p20241011" "db2" "t", notExistMsg "p20241010" "db2" "t",
            notExistMsg "p20241009" "db2" "t", notExistMsg "p20241008" "db2" "t",
            notExistMsg "p20241007" "db2" "t", notExistMsg "p20241006" "db2" "t"]
         already := [] }, [], some "boom") := by
  decide

set_option maxRecDepth 1000000 in
/-- C2, counterexample: with `retain_days = 45` and "now" = 2024-10-23 the
retire identifiers actually produced are `p20240908` down to `p20240901`;
in particular `p20240909` is not among them, so they are not
"exactly p20240909 through p20240916". -/
theorem c2_counterexample :
    (List.range 8).map (fun i => partitionName (subDays (45 + i) ⟨2024, 10, 23⟩)) =
      ["p20240908", "p20240907", "p20240906", "p20240905",
       "p20240904", "p20240903", "p20240902", "p20240901"] ∧
    ("p20240909" : String) ∉
      (List.range 8).map (fun i => partitionName (subDays (45 + i) ⟨2024, 10, 23⟩)) := by
  decide

set_option maxRecDepth 1000000 in
/-- C2, amended: the retire identifier for offset `i` names the calendar
date `now − (retain_days + i)` (round trip through the parser), and with
`retain_days = 37`, `step_count = 8`, "now" = 2024-10-23 the retire
identifiers produced are exactly `p20240909` through `p20240916`
inclusive (in descending date order). -/
theorem c2_amended :
    (∀ (now : Date) (delDay i : Nat), fourDigitDate (subDays (delDay + i) now) →
      parseIdent (partitionName (subDays (delDay + i) now)) =
        some (subDays (delDay + i) now)) ∧
    (List.range 8).map (fun i => partitionName (subDays (37 + i) ⟨2024, 10, 23⟩)) =
      ["p20240916", "p20240915", "p20240914", "p20240913",
       "p20240912", "p20240911", "p20240910", "p20240909"] := by
  constructor
  · intro now delDay i h
    exact parse_partitionName _ h
  · decide

set_option maxRecDepth 1000000 in
/-- Witness for the hypothesis of `c2_amended`. -/
theorem c2_amended_witness :
    parseIdent (partitionName (subDays (37 + 0) ⟨2024, 10, 23⟩)) =
      some (subDays (37 + 0) ⟨2024, 10, 23⟩) :=
  c2_amended.1 ⟨2024, 10, 23⟩ 37 0 (by decide)

set_option maxRecDepth 100000 in
/-- C3, counterexample: 0999-12-31 is a representable calendar date, but
its identifier is the 8-character `p9991231` (Python never zero-pads the
year), and lexical order disagrees with chronological order across the
three/four-digit boundary. -/
theorem c3_counterexample :
    pyDate ⟨999, 12, 31⟩ ∧ (partitionName ⟨999, 12, 31⟩).length ≠ 9 ∧
    dateLt ⟨999, 12, 31⟩ ⟨1000, 1, 1⟩ ∧
    ¬ partitionName ⟨999, 12, 31⟩ < partitionName ⟨1000, 1, 1⟩ := by
  refine ⟨by decide, by decide, by decide, ?_⟩
  rw [String.lt_iff_toList_lt]
  rw [show ∀ l₁ l₂ : List Char, (l₁ < l₂) ↔ List.lt l₁ l₂ from fun l₁ l₂ =>
    (List.lt_iff_lex_lt l₁ l₂).symm]
  decide

/-- C3, amended: over dates with four-digit years (1000–9999) the
identifier is the 9-character `p` + `YYYYMMDD`, parsing recovers the date
(hence the map is injective), and identifiers compare lexically exactly
as their dates compare chronologically. -/
theorem c3_amended :
    (∀ d : Date, fourDigitDate d →
      (partitionName d).length = 9 ∧ parseIdent (partitionName d) = some d) ∧
    (∀ d₁ d₂ : Date, fourDigitDate d₁ → fourDigitDate d₂ →
      (partitionName d₁ = partitionName d₂ → d₁ = d₂) ∧
      (dateLt d₁ d₂ ↔ partitionName d₁ < partitionName d₂)) := by
  constructor
  · intro d h
    constructor
    · show (partitionChars d).length = 9
      rw [partitionChars_eq d h]
      simp [padDigits_length]
    · exact parse_partitionName d h
  · intro d₁ d₂ h₁ h₂
    constructor
    · intro he
      have hp₁ := parse_partitionName d₁ h₁
      rw [he, parse_partitionName d₂ h₂] at hp₁
      simpa using hp₁.symm
    · exact (partitionName_lt_iff d₁ d₂ h₁ h₂).symm

/-- Witness for the hypotheses of `c3_amended`. -/
theorem c3_amended_witness :
    ((partitionName ⟨2024, 10, 23⟩).length = 9 ∧
      parseIdent (partitionName ⟨2024, 10, 23⟩) = some ⟨2024, 10, 23⟩) ∧
    (dateLt ⟨2024, 10, 23⟩ ⟨2024, 10, 30⟩ ↔
      partitionName ⟨2024, 10, 23⟩ < partitionName ⟨2024, 10, 30⟩) :=
  ⟨c3_amended.1 ⟨2024, 10, 23⟩ (by decide),
   (c3_amended.2 ⟨2024, 10, 23⟩ ⟨2024, 10, 30⟩ (by decide) (by decide)).2⟩

/-- C4: if the existence check reports the partition present, the create
protocol records AlreadyExists and issues no ADD PARTITION DDL; and
against a live catalog, creating the same (target, identifier) twice from
an absent state yields Added then AlreadyExists, with the partition set
after two runs equal to the set after one. -/
theorem c4_create_idempotent :
    (∀ (b : DBBehavior) (dbs tbs ident : String) (boundary : Int) (r : Report),
      b.check dbs tbs ident = .ok true →
      addTriple b dbs tbs ident boundary r =
        ({ r with already := r.already ++ [alreadyMsg ident dbs tbs] }, [], none)) ∧
    (∀ (parts : List PartKey) (dbs tbs ident : String) (boundary : Int),
      (dbs, tbs, ident) ∉ parts →
      createOnce parts dbs tbs ident boundary =
        (parts ++ [(dbs, tbs, ident)],
          { Report.empty with adds := [addedMsg ident dbs tbs] },
          [DDLCmd.addP dbs tbs ident boundary], none) ∧
      createOnce (parts ++ [(dbs, tbs, ident)]) dbs tbs ident boundary =
        (parts ++ [(dbs, tbs, ident)],
          { Report.empty with already := [alreadyMsg ident dbs tbs] }, [], none)) := by
  constructor
  · intro b dbs tbs ident boundary r h
    unfold addTriple
    rw [h]
  · intro parts dbs tbs ident boundary hmem
    constructor
    · simp [createOnce, addTriple, catalogDB, applyDDL, hmem, Report.empty]
    · have hm2 : (dbs, tbs, ident) ∈ parts ++ [(dbs, tbs, ident)] := by simp
      simp [createOnce, addTriple, catalogDB, hm2, Report.empty]

/-- A database that reports every partition as present. -/
def alwaysTrueDB : DBBehavior where
  check := fun _ _ _ => .ok true
  dropPart := fun _ _ _ => .ok ()
  addPart := fun _ _ _ _ => .ok ()

/-- Witness for the hypotheses of `c4_create_idempotent`. -/
theorem c4_witness :
    addTriple alwaysTrueDB "db" "t" "p20240101" 0 Report.empty =
      ({ Report.empty with already := [alreadyMsg "p20240101" "db" "t"] }, [], none) ∧
    createOnce [] "db" "t" "p20240101" 0 =
      ([("db", "t", "p20240101")],
        { Report.empty with adds := [addedMsg "p20240101" "db" "t"] },
        [DDLCmd.addP "db" "t" "p20240101" 0], none) :=
  ⟨c4_create_idempotent.1 alwaysTrueDB "db" "t" "p20240101" 0 Report.empty rfl,
   (c4_create_idempotent.2 [] "db" "t" "p20240101" 0 (by decide)).1⟩

/-- C5: if the existence check reports the partition absent, the retire
protocol records DoesNotExist, issues no DROP PARTITION DDL, and leaves
every other report list — in particular the errors — unchanged. -/
theorem c5_retire_absent :
    ∀ (b : DBBehavior) (dbs tbs ident : String) (r : Report),
      b.check dbs tbs ident = .ok false →
      delTriple b dbs tbs ident r =
        ({ r with notExists := r.notExists ++ [notExistMsg ident dbs tbs] }, []) := by
  intro b dbs tbs ident r h
  unfold delTriple
  rw [h]

/-- A database that reports every partition as absent. -/
def alwaysFalseDB : DBBehavior where
  check := fun _ _ _ => .ok false
  dropPart := fun _ _ _ => .ok ()
  addPart := fun _ _ _ _ => .ok ()

/-- Witness for the hypothesis of `c5_retire_absent`. -/
theorem c5_witness :
    delTriple alwaysFalseDB "db" "t" "p20240101" Report.empty =
      ({ Report.empty with notExists := [notExistMsg "p20240101" "db" "t"] }, []) :=
  c5_retire_absent alwaysFalseDB "db" "t" "p20240101" Report.empty rfl

/-- C6: chunking at the 4096-character limit yields chunks of length at
most 4096 whose in-order concatenation is the original string, and a
9000-character string becomes exactly 3 chunks. -/
theorem c6_chunking : ∀ s : String,
    (∀ c ∈ splitMessageStr s, c.length ≤ 4096) ∧
    concatStrings (splitMessageStr s) = s ∧
    (s.length = 9000 → (splitMessageStr s).length = 3) := by
  intro s
  refine ⟨?_, concatStrings_splitMessageStr s, ?_⟩
  · intro c hc
    unfold splitMessageStr at hc
    simp only [List.mem_map] at hc
    obtain ⟨l, hl, rfl⟩ := hc
    have := split_message_chunk_le MAX_LENGTH s.data l hl
    simpa [MAX_LENGTH] using this
  · intro h9
    unfold splitMessageStr
    rw [List.length_map, split_message_length]
    have hsd : s.data.length = 9000 := h9
    rw [hsd]
    decide

/-- A 9000-character message. -/
def nineKMessage : String := ⟨List.replicate 9000 'a'⟩

/-- Witness for the hypothesis of `c6_chunking`. -/
theorem c6_witness :
    concatStrings (splitMessageStr nineKMessage) = nineKMessage ∧
    (splitMessageStr nineKMessage).length = 3 :=
  ⟨(c6_chunking nineKMessage).2.1,
   (c6_chunking nineKMessage).2.2
     (by show (List.replicate 9000 'a').length = 9000; rw [List.length_replicate])⟩

set_option maxRecDepth 1000000 in
/-- C7: with positive lead and interval, create-boundary dates are
strictly increasing in the offset index, strictly follow "now", and never
precede "now" + lead; with `lead_days = 7`, `interval_days = 1`,
`step_count = 8` and "now" = 2024-10-23 the create identifiers are
exactly `p20241030` through `p20241106`. -/
theorem c7_create_window :
    (∀ now : Date, goodDate now → ∀ lead interval i j : Nat,
      1 ≤ lead → 1 ≤ interval → i < j →
      dateLt (addDays (lead + i * interval) now) (addDays (lead + j * interval) now) ∧
      dateLt now (addDays (lead + i * interval) now) ∧
      dateKey (addDays lead now) ≤ dateKey (addDays (lead + i * interval) now)) ∧
    (List.range 8).map (fun i => partitionName (addDays (7 + i * 1) ⟨2024, 10, 23⟩)) =
      ["p20241030", "p20241031", "p20241101", "p20241102",
       "p20241103", "p20241104", "p20241105", "p20241106"] := by
  constructor
  · intro now hg lead interval i j hl hi hij
    have hmul : i * interval < j * interval :=
      Nat.mul_lt_mul_of_lt_of_le hij (Nat.le_refl interval) (by omega)
    refine ⟨?_, ?_, ?_⟩
    · rw [dateLt_iff_key _ _ (goodDate_addDays _ now hg) (goodDate_addDays _ now hg)]
      exact dateKey_addDays_strict_mono _ _ now hg (by omega)
    · rw [dateLt_iff_key _ _ hg (goodDate_addDays _ now hg)]
      exact dateKey_lt_addDays _ now hg (by omega)
    · exact dateKey_addDays_mono _ _ now hg (by omega)
  · decide

set_option maxRecDepth 1000000 in
/-- Witness for the hypotheses of `c7_create_window`. -/
theorem c7_witness :
    dateLt (addDays (7 + 0 * 1) ⟨2024, 10, 23⟩) (addDays (7 + 1 * 1) ⟨2024, 10, 23⟩) ∧
    dateLt ⟨2024, 10, 23⟩ (addDays (7 + 0 * 1) ⟨2024, 10, 23⟩) ∧
    dateKey (addDays 7 ⟨2024, 10, 23⟩) ≤ dateKey (addDays (7 + 0 * 1) ⟨2024, 10, 23⟩) :=
  c7_create_window.1 ⟨2024, 10, 23⟩ (by decide) 7 1 0 1 (by decide) (by decide) (by decide)

set_option maxRecDepth 1000000 in
/-- C8, counterexample: a run sampled on 2024-10-23 (BST) computing the
boundary for 2024-10-30 (GMT, after the DST transition) does not produce
the midnight instant of the boundary date in Europe/London — it is one
hour early. -/
theorem c8_counterexample :
    boundaryMillis ⟨2024, 10, 23⟩ 7 ≠ midnightMillisLondon (addDays 7 ⟨2024, 10, 23⟩) := by
  decide

/-- C8, amended: the ADD PARTITION boundary is midnight of the boundary
date rendered at the UTC offset sampled at "now"; whenever that offset
equals the offset in effect on the boundary date (no DST change in
between), it is exactly the boundary date's midnight instant in
Europe/London. -/
theorem c8_amended : ∀ (now : Date) (delta : Nat),
    londonOffsetMinutes (addDays delta now) = londonOffsetMinutes now →
    boundaryMillis now delta = midnightMillisLondon (addDays delta now) := by
  intro now delta h
  unfold boundaryMillis midnightMillisLondon
  rw [h]

set_option maxRecDepth 1000000 in
/-- Witness for the hypothesis of `c8_amended`. -/
theorem c8_witness :
    boundaryMillis ⟨2024, 9, 1⟩ 7 = midnightMillisLondon (addDays 7 ⟨2024, 9, 1⟩) :=
  c8_amended ⟨2024, 9, 1⟩ 7 (by decide)

/-- C9: rendering an empty outcome category yields the empty string, and
sending an empty string performs no delivery at all. -/
theorem c9_empty_suppression :
    renderSection [] = "" ∧ send_telegram_message "" = [] := by
  constructor
  · rfl
  · rfl

/-- C10: `execute_sql` always returns a result record: on success the
error field is empty and the record carries the SELECT rows or the
affected-row count from the query; on any connection or execution
failure success is false and the error field holds the message; and the
connection is closed exactly when one was established. -/
theorem c10_execute_sql : ∀ env : ExecEnv,
    ((execute_sql env).1.success = true →
      (execute_sql env).1.error = none ∧
      ∃ c, env.connect = .ok c ∧
        ((∃ rows, env.executeQuery c = .ok (.selectRows rows) ∧
            (execute_sql env).1.isSelect = true ∧ (execute_sql env).1.data = some rows) ∨
          (∃ n, env.executeQuery c = .ok (.affected n) ∧
            (execute_sql env).1.affectedRows = n))) ∧
    ((execute_sql env).1.success = false → ∃ e, (execute_sql env).1.error = some e) ∧
    (∀ c, env.connect = .ok c → (execute_sql env).2 = [c]) ∧
    (∀ e, env.connect = .error e → (execute_sql env).2 = []) := by
  intro env
  rcases hconn : env.connect with e | c
  · simp [execute_sql, hconn, ExecResult.init]
  · rcases hq : env.executeQuery c with e | q
    · simp [execute_sql, hconn, hq, ExecResult.init]
    · rcases q with rows | n
      · by_cases hrows : rows = []
        · subst hrows
          simp [execute_sql, hconn, hq, ExecResult.init]
        · rcases hcsv : env.saveCsv rows with e | path
          · simp [execute_sql, hconn, hq, hrows, hcsv, ExecResult.init]
          · simp [execute_sql, hconn, hq, hrows, hcsv, ExecResult.init]
      · simp [execute_sql, hconn, hq, ExecResult.init]

/-- A healthy environment: connection 0, a DML statement affecting 3
rows. -/
def demoEnv : ExecEnv where
  connect := .ok 0
  executeQuery := fun _ => .ok (.affected 3)
  saveCsv := fun _ => .ok "out.csv"

/-- Witness for the hypotheses of `c10_execute_sql`. -/
theorem c10_witness :
    (execute_sql demoEnv).2 = [0] ∧ (execute_sql demoEnv).1.error = none :=
  ⟨(c10_execute_sql demoEnv).2.2.1 0 rfl, ((c10_execute_sql demoEnv).1 rfl).1⟩
